import Mathlib

/-!
# Verification of the YuumAI flip-book sequencing engine

Shallow embedding of the page-flip state machine in
`src/front-end/components/FlipBook.jsx`, the page unit in
`src/front-end/components/FlipPage.jsx`, and the bookmark components
(`BackBookmark.jsx` and the front `Bookmark`), together with proofs of the
specified invariants.

The React component state of `FlipBook` is modelled as an explicit record
`BookState`; the event handlers (`handleFlip`, `flipToPage`,
`handleBookmarkClick`) become pure state transformers.  The per-step
`setTimeout` delays inside `flipToPage` only sequence the flips in time;
the resulting settled state is the sequential composition modelled here.
Flip callbacks that actually fire are recorded in an event trace so that
ordering claims can be stated.
-/

namespace FlipBook

/-- The state held by the `FlipBook` component (the spec's FlipSequencer):
page descriptor identities, the z-index vector, the flipped-state vector,
the cursor, the boundary flags and the in-flight guard.  Page content is
opaque to the engine, so `pages` keeps only the descriptor ids. -/
structure BookState where
  pages : List Nat
  zIndices : List Nat
  flippedStates : List Bool
  currentPage : Nat
  onFirstPage : Bool
  onLastPage : Bool
  isTurning : Bool
deriving Repr, DecidableEq

/-- `Math.max(...prevZ)` for a nonempty list of nonnegative z-indices
(the engine only ever takes the maximum of the nonempty z-index vector). -/
def listMax (l : List Nat) : Nat := l.foldr max 0

/-- `updatedFlipped.filter(Boolean).length` — the number of `true`
entries of the flipped-state vector. -/
def countTrue (l : List Bool) : Nat := (l.filter id).length

/-- `handleFlip(pageIndex, isFlipped)` (FlipBook.jsx lines 306–328):
writes `isFlipped` into entry `pageIndex` of the flipped vector, bumps
that page's z-index to `max(prevZ) + 1`, re-derives `currentPage` as the
count of `true` entries, and recomputes both boundary flags.  Callers
only ever pass an in-range `pageIndex` (the callback is wired per page at
render time), matching `List.set` semantics. -/
def handleFlip (st : BookState) (pageIndex : Nat) (isFlipped : Bool) : BookState :=
  let updatedFlipped := st.flippedStates.set pageIndex isFlipped
  let maxZ := listMax st.zIndices
  let newZ := st.zIndices.set pageIndex (maxZ + 1)
  let flippedCount := countTrue updatedFlipped
  let firstFlipped := updatedFlipped.getD 0 false
  let lastFlipped := updatedFlipped.getD (updatedFlipped.length - 1) false
  { st with
    flippedStates := updatedFlipped
    zIndices := newZ
    currentPage := flippedCount
    onFirstPage := !firstFlipped
    onLastPage := lastFlipped }

/-- `pageRefs.current[i].flip()` when the ref is mounted: the `FlipPage`
unit toggles its own `isFlipped` (kept in sync with `flippedStates[i]`
through the `flipped` prop) and reports the new value through
`onFlip = (flipped) => handleFlip(i, flipped)`. -/
def flipAt (st : BookState) (i : Nat) : BookState :=
  handleFlip st i (!(st.flippedStates.getD i false))

/-- One scheduled step of a navigation sequence:
`pageRefs.current[i]?.flip()`.  `refs` records which page refs are
mounted; the optional-chaining call is a silent no-op when the ref is
missing, and `resolve()` runs either way. -/
def flipStep (refs : List Bool) (st : BookState) (i : Nat) : BookState :=
  if refs.getD i false then flipAt st i else st

/-- Runs the scheduled flip steps of a navigation sequence in order,
returning the settled state and the trace of `onFlip` reports that
actually fired, each as `(pageIndex, newFlippedValue)`. -/
def runFlips (refs : List Bool) (st : BookState) : List Nat → BookState × List (Nat × Bool)
  | [] => (st, [])
  | i :: rest =>
      if refs.getD i false then
        let st2 := flipAt st i
        let res := runFlips refs st2 rest
        (res.1, (i, !(st.flippedStates.getD i false)) :: res.2)
      else
        runFlips refs st rest

/-- `[c, c+1, ..., c+k-1]`: the ascending index sequence of the forward
loop `for (let i = currentPage; i < targetPage; i++)`. -/
def ascFrom (c : Nat) : Nat → List Nat
  | 0 => []
  | k + 1 => c :: ascFrom (c + 1) k

/-- `[s, s-1, ..., s-k+1]`: the descending index sequence of the backward
loop `for (let i = currentPage - 1; i >= targetPage; i--)` starts at
`s = currentPage - 1` and runs for `k = currentPage - targetPage` steps. -/
def descFrom : Nat → Nat → List Nat
  | _, 0 => []
  | s, k + 1 => s :: descFrom (s - 1) k

/-- `flipToPage(targetPage)` (FlipBook.jsx lines 330–358): drops the
request if the target equals the cursor or a sequence is already in
flight; otherwise sets the `isTurning` guard, runs the ascending or
descending flip steps (the loop bounds are the cursor captured at entry),
and clears the guard after the settle delay.  Returns the settled state
and the trace of flips that fired. -/
def flipToPage (refs : List Bool) (st : BookState) (targetPage : Nat) :
    BookState × List (Nat × Bool) :=
  if targetPage = st.currentPage then (st, [])
  else if st.isTurning then (st, [])
  else
    let st1 : BookState := { st with isTurning := true }
    let seq :=
      if targetPage > st.currentPage then ascFrom st.currentPage (targetPage - st.currentPage)
      else descFrom (st.currentPage - 1) (st.currentPage - targetPage)
    let res := runFlips refs st1 seq
    ({ res.1 with isTurning := false }, res.2)

/-- A whole sequence of navigation requests, each settling before the
next is issued. -/
def runRequests (refs : List Bool) (st : BookState) : List Nat → BookState
  | [] => st
  | t :: ts => runRequests refs (flipToPage refs st t).1 ts

/-- The initialization effect (FlipBook.jsx lines 291–304): `total` pages,
z-indices `total - i + 1`, all flipped states `false`; the remaining
fields start from their `useState` initial values. -/
def initBook (total : Nat) : BookState :=
  { pages := List.range total
    zIndices := (List.range total).map (fun i => total - i + 1)
    flippedStates := List.replicate total false
    currentPage := 0
    onFirstPage := true
    onLastPage := false
    isTurning := false }

/-- The flipped-state vector of a settled book whose cursor is `c`:
exactly the first `c` of the `n` pages are turned. -/
def prefixList (n c : Nat) : List Bool := (List.range n).map (fun i => decide (i < c))

end FlipBook

namespace FlipPage

/-- The local state of a `FlipPage` unit (FlipPage.jsx). -/
structure PageUnitState where
  isFlipped : Bool
deriving Repr, DecidableEq

/-- `pageFlip` (FlipPage.jsx lines 37–59): toggles the unit's own
`isFlipped` and invokes `onFlip(newFlipState)`.  The returned list is the
sequence of `onFlip` invocations (their arguments); the audio cue is a
logged, swallowed side effect with no bearing on state or callbacks. -/
def pageFlip (u : PageUnitState) : PageUnitState × List Bool :=
  let newFlipState := !u.isFlipped
  ({ isFlipped := newFlipState }, [newFlipState])

/-- The `useEffect` on the `flipped` prop (FlipPage.jsx lines 25–27):
`setIsFlipped(flipped)` — declarative synchronization, invoking no
callback. -/
def syncFlippedProp (_u : PageUnitState) (flipped : Bool) : PageUnitState × List Bool :=
  ({ isFlipped := flipped }, [])

end FlipPage

namespace FlipBook

/-- A DOM click event; the engine only observes whether propagation has
been stopped. -/
structure ClickEvent where
  propagationStopped : Bool
deriving Repr, DecidableEq

/-- `handleBookmarkClick(e, targetPage)` (FlipBook.jsx lines 360–363):
`e.stopPropagation()` then `flipToPage(targetPage)`. -/
def handleBookmarkClick (refs : List Bool) (e : ClickEvent) (st : BookState)
    (targetPage : Nat) : ClickEvent × (BookState × List (Nat × Bool)) :=
  ({ e with propagationStopped := true }, flipToPage refs st targetPage)

/-- `handleClick` of `BackBookmark` (BackBookmark.jsx lines 4–9, and the
identical front `Bookmark` handler): forwards `(e, targetPage)` to the
supplied `onClick`, which `FlipBook` always wires to
`handleBookmarkClick`. -/
def bookmarkClick (refs : List Bool) (e : ClickEvent) (st : BookState)
    (targetPage : Nat) : ClickEvent × (BookState × List (Nat × Bool)) :=
  handleBookmarkClick refs e st targetPage

/-! ## Helper lemmas -/

lemma le_listMax {l : List Nat} {x : Nat} (hx : x ∈ l) : x ≤ listMax l := by
  induction l with
  | nil => cases hx
  | cons a l ih =>
      rcases List.mem_cons.mp hx with h | h
      · subst h
        exact le_max_left _ _
      · exact le_trans (ih h) (le_max_right _ _)

lemma getD_set_ne {α : Type} (l : List α) (i j : Nat) (a d : α) (h : i ≠ j) :
    (l.set i a).getD j d = l.getD j d := by
  by_cases hj : j < l.length
  · rw [List.getD_eq_getElem _ _ (by simpa using hj), List.getD_eq_getElem _ _ hj,
      List.getElem_set_ne h]
  · rw [List.getD_eq_default _ _ (by simpa using Nat.le_of_not_lt hj),
      List.getD_eq_default _ _ (Nat.le_of_not_lt hj)]

lemma getD_set_self {α : Type} (l : List α) (i : Nat) (a d : α) (h : i < l.length) :
    (l.set i a).getD i d = a := by
  rw [List.getD_eq_getElem _ _ (by simpa using h), List.getElem_set_self]

lemma prefixList_length (n c : Nat) : (prefixList n c).length = n := by
  simp [prefixList]

lemma prefixList_getD {n c i : Nat} (h : i < n) :
    (prefixList n c).getD i false = decide (i < c) := by
  rw [List.getD_eq_getElem _ _ (by simpa [prefixList_length] using h)]
  simp [prefixList]

lemma prefixList_set_true {n c : Nat} (_h : c < n) :
    (prefixList n c).set c true = prefixList n (c + 1) := by
  apply List.ext_getElem
  · simp [prefixList_length]
  · intro i h1 h2
    rw [List.getElem_set]
    simp only [prefixList, List.getElem_map, List.getElem_range]
    by_cases hci : c = i
    · subst hci
      simp
    · simp only [if_neg hci, decide_eq_decide]
      omega

lemma prefixList_set_false {n c : Nat} (h0 : 0 < c) (_hn : c ≤ n) :
    (prefixList n c).set (c - 1) false = prefixList n (c - 1) := by
  apply List.ext_getElem
  · simp [prefixList_length]
  · intro i h1 h2
    rw [List.getElem_set]
    simp only [prefixList, List.getElem_map, List.getElem_range]
    by_cases hci : c - 1 = i
    · subst hci
      simp
    · simp only [if_neg hci, decide_eq_decide]
      omega

lemma countTrue_append (l1 l2 : List Bool) :
    countTrue (l1 ++ l2) = countTrue l1 + countTrue l2 := by
  simp [countTrue, List.filter_append]

lemma countTrue_prefixList (n c : Nat) : countTrue (prefixList n c) = min n c := by
  induction n with
  | zero => simp [prefixList, countTrue]
  | succ n ih =>
      have hsplit : prefixList (n + 1) c = prefixList n c ++ [decide (n < c)] := by
        simp [prefixList, List.range_succ]
      rw [hsplit, countTrue_append, ih]
      by_cases h : n < c
      · have hd : decide (n < c) = true := by simpa using h
        rw [hd]
        simp [countTrue]
        omega
      · have hd : decide (n < c) = false := by simpa using h
        rw [hd]
        simp [countTrue]
        omega

lemma replicate_true_getD {n i : Nat} (h : i < n) :
    (List.replicate n true).getD i false = true := by
  rw [List.getD_eq_getElem _ _ (by simpa using h)]
  simp

lemma handleFlip_flippedStates (st : BookState) (i : Nat) (v : Bool) :
    (handleFlip st i v).flippedStates = st.flippedStates.set i v := rfl

lemma handleFlip_currentPage (st : BookState) (i : Nat) (v : Bool) :
    (handleFlip st i v).currentPage = countTrue (st.flippedStates.set i v) := rfl

lemma handleFlip_zIndices (st : BookState) (i : Nat) (v : Bool) :
    (handleFlip st i v).zIndices = st.zIndices.set i (listMax st.zIndices + 1) := rfl

lemma handleFlip_isTurning (st : BookState) (i : Nat) (v : Bool) :
    (handleFlip st i v).isTurning = st.isTurning := rfl

lemma handleFlip_pages (st : BookState) (i : Nat) (v : Bool) :
    (handleFlip st i v).pages = st.pages := rfl

lemma runFlips_cons_true {refs : List Bool} {i : Nat} (h : refs.getD i false = true)
    (st : BookState) (rest : List Nat) :
    runFlips refs st (i :: rest) =
      ((runFlips refs (flipAt st i) rest).1,
        (i, !(st.flippedStates.getD i false)) :: (runFlips refs (flipAt st i) rest).2) := by
  rw [runFlips, h]
  rfl

lemma runFlips_cons_false {refs : List Bool} {i : Nat} (h : refs.getD i false = false)
    (st : BookState) (rest : List Nat) :
    runFlips refs st (i :: rest) = runFlips refs st rest := by
  rw [runFlips, h]
  rfl

lemma flipAt_prefix_succ {n c : Nat} {st : BookState} (h : c < n)
    (hf : st.flippedStates = prefixList n c) :
    (flipAt st c).flippedStates = prefixList n (c + 1) ∧
    (flipAt st c).currentPage = c + 1 ∧
    (flipAt st c).isTurning = st.isTurning := by
  have hgetD : st.flippedStates.getD c false = false := by
    rw [hf, prefixList_getD h]
    simp
  have hval : flipAt st c = handleFlip st c true := by
    rw [flipAt, hgetD]
    rfl
  have hset : st.flippedStates.set c true = prefixList n (c + 1) := by
    rw [hf]
    exact prefixList_set_true h
  refine ⟨?_, ?_, ?_⟩
  · rw [hval, handleFlip_flippedStates, hset]
  · rw [hval, handleFlip_currentPage, hset, countTrue_prefixList]
    omega
  · rw [hval, handleFlip_isTurning]

lemma flipAt_prefix_pred {n c : Nat} {st : BookState} (h0 : 0 < c) (hn : c ≤ n)
    (hf : st.flippedStates = prefixList n c) :
    (flipAt st (c - 1)).flippedStates = prefixList n (c - 1) ∧
    (flipAt st (c - 1)).currentPage = c - 1 ∧
    (flipAt st (c - 1)).isTurning = st.isTurning := by
  have hgetD : st.flippedStates.getD (c - 1) false = true := by
    rw [hf, prefixList_getD (by omega : c - 1 < n)]
    simpa using (by omega : c - 1 < c)
  have hval : flipAt st (c - 1) = handleFlip st (c - 1) false := by
    rw [flipAt, hgetD]
    rfl
  have hset : st.flippedStates.set (c - 1) false = prefixList n (c - 1) := by
    rw [hf]
    exact prefixList_set_false h0 hn
  refine ⟨?_, ?_, ?_⟩
  · rw [hval, handleFlip_flippedStates, hset]
  · rw [hval, handleFlip_currentPage, hset, countTrue_prefixList]
    omega
  · rw [hval, handleFlip_isTurning]

lemma runFlips_asc {n : Nat} {refs : List Bool}
    (href : ∀ i, i < n → refs.getD i false = true) :
    ∀ (k c : Nat) (st : BookState), c + k ≤ n →
      st.flippedStates = prefixList n c → st.currentPage = c →
      (runFlips refs st (ascFrom c k)).1.flippedStates = prefixList n (c + k) ∧
      (runFlips refs st (ascFrom c k)).1.currentPage = c + k ∧
      (runFlips refs st (ascFrom c k)).1.isTurning = st.isTurning ∧
      (runFlips refs st (ascFrom c k)).2 = (ascFrom c k).map (fun i => (i, true)) := by
  intro k
  induction k with
  | zero =>
      intro c st _ hf hc
      simp [ascFrom, runFlips, hf, hc]
  | succ k ih =>
      intro c st hle hf hc
      have hcn : c < n := by omega
      have hrc : refs.getD c false = true := href c hcn
      have hgetD : st.flippedStates.getD c false = false := by
        rw [hf, prefixList_getD hcn]
        simp
      obtain ⟨hf2, hc2, ht2⟩ := flipAt_prefix_succ hcn hf
      obtain ⟨ihf, ihc, iht, ihtr⟩ := ih (c + 1) (flipAt st c) (by omega) hf2 hc2
      have hunf : runFlips refs st (ascFrom c (k + 1)) =
          ((runFlips refs (flipAt st c) (ascFrom (c + 1) k)).1,
            (c, !(st.flippedStates.getD c false)) ::
              (runFlips refs (flipAt st c) (ascFrom (c + 1) k)).2) := by
        rw [ascFrom]
        exact runFlips_cons_true hrc st (ascFrom (c + 1) k)
      refine ⟨?_, ?_, ?_, ?_⟩
      · rw [hunf]
        simpa [Nat.add_assoc, Nat.add_comm 1 k] using ihf
      · rw [hunf]
        simpa [Nat.add_assoc, Nat.add_comm 1 k] using ihc
      · rw [hunf]
        rw [iht, ht2]
      · rw [hunf, hgetD]
        simp only [ascFrom, List.map_cons]
        rw [ihtr]
        simp

lemma runFlips_desc {n : Nat} {refs : List Bool}
    (href : ∀ i, i < n → refs.getD i false = true) :
    ∀ (k c : Nat) (st : BookState), k ≤ c → c ≤ n →
      st.flippedStates = prefixList n c → st.currentPage = c →
      (runFlips refs st (descFrom (c - 1) k)).1.flippedStates = prefixList n (c - k) ∧
      (runFlips refs st (descFrom (c - 1) k)).1.currentPage = c - k ∧
      (runFlips refs st (descFrom (c - 1) k)).1.isTurning = st.isTurning ∧
      (runFlips refs st (descFrom (c - 1) k)).2 =
        (descFrom (c - 1) k).map (fun i => (i, false)) := by
  intro k
  induction k with
  | zero =>
      intro c st _ _ hf hc
      simp [descFrom, runFlips, hf, hc]
  | succ k ih =>
      intro c st hkc hcn hf hc
      have h0 : 0 < c := by omega
      have hc1n : c - 1 < n := by omega
      have hrc : refs.getD (c - 1) false = true := href (c - 1) hc1n
      have hgetD : st.flippedStates.getD (c - 1) false = true := by
        rw [hf, prefixList_getD hc1n]
        simpa using (by omega : c - 1 < c)
      obtain ⟨hf2, hc2, ht2⟩ := flipAt_prefix_pred h0 hcn hf
      obtain ⟨ihf, ihc, iht, ihtr⟩ :=
        ih (c - 1) (flipAt st (c - 1)) (by omega) (by omega) hf2 hc2
      have hunf : runFlips refs st (descFrom (c - 1) (k + 1)) =
          ((runFlips refs (flipAt st (c - 1)) (descFrom (c - 1 - 1) k)).1,
            (c - 1, !(st.flippedStates.getD (c - 1) false)) ::
              (runFlips refs (flipAt st (c - 1)) (descFrom (c - 1 - 1) k)).2) := by
        rw [descFrom]
        exact runFlips_cons_true hrc st (descFrom (c - 1 - 1) k)
      refine ⟨?_, ?_, ?_, ?_⟩
      · rw [hunf]
        have : c - 1 - k = c - (k + 1) := by omega
        rw [ihf, this]
      · rw [hunf]
        have : c - 1 - k = c - (k + 1) := by omega
        rw [ihc, this]
      · rw [hunf]
        rw [iht, ht2]
      · rw [hunf, hgetD]
        simp only [descFrom, List.map_cons]
        rw [ihtr]
        simp

lemma le_of_mem_ascFrom : ∀ {k c x : Nat}, x ∈ ascFrom c k → c ≤ x := by
  intro k
  induction k with
  | zero =>
      intro c x h
      cases h
  | succ k ih =>
      intro c x h
      rcases List.mem_cons.mp h with h | h
      · omega
      · have := ih h
        omega

lemma pairwise_lt_ascFrom : ∀ (k c : Nat), List.Pairwise (· < ·) (ascFrom c k) := by
  intro k
  induction k with
  | zero =>
      intro c
      simp [ascFrom]
  | succ k ih =>
      intro c
      rw [ascFrom, List.pairwise_cons]
      refine ⟨?_, ih (c + 1)⟩
      intro y hy
      have := le_of_mem_ascFrom hy
      omega

lemma le_of_mem_descFrom : ∀ {k s x : Nat}, x ∈ descFrom s k → x ≤ s := by
  intro k
  induction k with
  | zero =>
      intro s x h
      cases h
  | succ k ih =>
      intro s x h
      rcases List.mem_cons.mp h with h | h
      · omega
      · have := ih h
        omega

lemma pairwise_gt_descFrom : ∀ (k s : Nat), k ≤ s + 1 → List.Pairwise (· > ·) (descFrom s k) := by
  intro k
  induction k with
  | zero =>
      intro s _
      simp [descFrom]
  | succ k ih =>
      intro s hk
      rw [descFrom, List.pairwise_cons]
      constructor
      · intro y hy
        have hys := le_of_mem_descFrom hy
        rcases Nat.eq_zero_or_pos s with hs | hs
        · subst hs
          have : k = 0 := by omega
          subst this
          cases hy
        · omega
      · exact ih (s - 1) (by omega)

/-- The derived-cursor invariant: the cursor equals the count of `true`
entries of the flipped vector. -/
def cursorDerived (st : BookState) : Prop :=
  st.currentPage = countTrue st.flippedStates

lemma handleFlip_cursorDerived (st : BookState) (i : Nat) (v : Bool) :
    cursorDerived (handleFlip st i v) := by
  rw [cursorDerived, handleFlip_currentPage, handleFlip_flippedStates]

lemma runFlips_cursorDerived (refs : List Bool) :
    ∀ (l : List Nat) (st : BookState), cursorDerived st →
      cursorDerived (runFlips refs st l).1 := by
  intro l
  induction l with
  | nil =>
      intro st h
      simpa [runFlips] using h
  | cons i rest ih =>
      intro st h
      by_cases hr : refs.getD i false = true
      · rw [runFlips_cons_true hr st rest]
        exact ih (flipAt st i) (handleFlip_cursorDerived st i _)
      · have hr2 : refs.getD i false = false := by
          simpa using hr
        rw [runFlips_cons_false hr2 st rest]
        exact ih st h

lemma flipToPage_cursorDerived (refs : List Bool) (st : BookState) (t : Nat)
    (h : cursorDerived st) : cursorDerived (flipToPage refs st t).1 := by
  rw [flipToPage]
  by_cases h1 : t = st.currentPage
  · simpa [h1] using h
  · by_cases h2 : st.isTurning = true
    · simp only [if_neg h1, h2, if_true]
      exact h
    · have h2f : st.isTurning = false := by
        simpa using h2
      simp only [if_neg h1, h2f, Bool.false_eq_true, if_false]
      have hst1 : cursorDerived { st with isTurning := true } := h
      have := runFlips_cursorDerived refs
        (if t > st.currentPage then ascFrom st.currentPage (t - st.currentPage)
          else descFrom (st.currentPage - 1) (st.currentPage - t))
        { st with isTurning := true } hst1
      exact this

lemma runRequests_cursorDerived (refs : List Bool) :
    ∀ (reqs : List Nat) (st : BookState), cursorDerived st →
      cursorDerived (runRequests refs st reqs) := by
  intro reqs
  induction reqs with
  | nil =>
      intro st h
      simpa [runRequests] using h
  | cons t ts ih =>
      intro st h
      rw [runRequests]
      exact ih _ (flipToPage_cursorDerived refs st t h)

/-! ## Claim theorems -/

/-- C1: after every completed flip report (`handleFlip`), `currentPage`
equals the number of `true` entries of the flipped-state vector; it is
re-derived from that count each time, never incremented independently, so
the invariant holds across every sequence of navigation requests. -/
theorem currentPage_always_rederived :
    (∀ (st : BookState) (i : Nat) (v : Bool),
      (handleFlip st i v).currentPage = countTrue (handleFlip st i v).flippedStates) ∧
    (∀ (refs : List Bool) (st : BookState) (reqs : List Nat),
      st.currentPage = countTrue st.flippedStates →
      (runRequests refs st reqs).currentPage =
        countTrue (runRequests refs st reqs).flippedStates) := by
  constructor
  · intro st i v
    exact handleFlip_cursorDerived st i v
  · intro refs st reqs h
    exact runRequests_cursorDerived refs reqs st h

/-- Witness for C1 at the initialized 13-page book and the request
sequence `[3, 1]`. -/
theorem currentPage_always_rederived_witness :
    (initBook 13).currentPage = countTrue (initBook 13).flippedStates ∧
    (runRequests (List.replicate 13 true) (initBook 13) [3, 1]).currentPage =
      countTrue (runRequests (List.replicate 13 true) (initBook 13) [3, 1]).flippedStates :=
  ⟨by decide,
    currentPage_always_rederived.2 (List.replicate 13 true) (initBook 13) [3, 1] (by decide)⟩

/-- C3: a navigation request arriving while the `isTurning` guard is set
is dropped with no effect whatsoever: the whole state (flipped vector,
draw order, cursor, boundary flags, guard) is unchanged and no flip
fires. -/
theorem flipToPage_drops_while_turning (refs : List Bool) (st : BookState) (t : Nat)
    (h : st.isTurning = true) : flipToPage refs st t = (st, []) := by
  rw [flipToPage]
  by_cases h1 : t = st.currentPage
  · rw [if_pos h1]
  · rw [if_neg h1, h]
    rfl

/-- Witness for C3: a request aimed at page 2 while the guard is set is a
no-op on a concrete 3-page book. -/
theorem flipToPage_drops_while_turning_witness :
    flipToPage [true, true, true] { initBook 3 with isTurning := true } 2 =
      ({ initBook 3 with isTurning := true }, []) :=
  flipToPage_drops_while_turning [true, true, true]
    { initBook 3 with isTurning := true } 2 rfl

/-- C4 (counterexample to the claim as stated): with the ref of page 1
missing, the forward sequence `0 → 3` does NOT stop at the missing step —
the later-indexed step for page 2 still fires, leaving page 1 unflipped
in the middle and the cursor at 2. -/
theorem missing_ref_sequence_continues_counterexample :
    (List.getD [true, false, true] 1 false = false) ∧
    (2, true) ∈ (flipToPage [true, false, true] (initBook 3) 3).2 ∧
    (flipToPage [true, false, true] (initBook 3) 3).1.flippedStates =
      [true, false, true] ∧
    (flipToPage [true, false, true] (initBook 3) 3).1.currentPage = 2 := by
  decide

/-- C4 (amended): a scheduled step whose PageUnit ref is missing is
abandoned silently — no state change, no flip report, no exception — and
the sequence continues with the remaining steps exactly as if the missing
step were absent (so the cursor can end short of the target, by one per
skipped page). -/
theorem missing_ref_step_skipped (refs : List Bool) (st : BookState) (i : Nat)
    (rest : List Nat) (h : refs.getD i false = false) :
    runFlips refs st (i :: rest) = runFlips refs st rest :=
  runFlips_cons_false h st rest

/-- Witness for the amended C4 on a concrete 3-page book with the ref of
page 1 missing. -/
theorem missing_ref_step_skipped_witness :
    List.getD [true, false, true] 1 false = false ∧
    runFlips [true, false, true] (initBook 3) [1, 2] =
      runFlips [true, false, true] (initBook 3) [2] :=
  ⟨by decide, missing_ref_step_skipped [true, false, true] (initBook 3) 1 [2] (by decide)⟩

/-- C5: after a completed flip of page `i`, that page's draw-order entry
is the previous maximum plus one, hence strictly greater than every other
page's entry. -/
theorem handleFlip_draw_order_max (st : BookState) (i j : Nat) (v : Bool)
    (hi : i < st.zIndices.length) (hj : j < st.zIndices.length) (hne : j ≠ i) :
    (handleFlip st i v).zIndices.getD i 0 = listMax st.zIndices + 1 ∧
    (handleFlip st i v).zIndices.getD j 0 < (handleFlip st i v).zIndices.getD i 0 := by
  have hset : (handleFlip st i v).zIndices = st.zIndices.set i (listMax st.zIndices + 1) :=
    handleFlip_zIndices st i v
  have hgi : (handleFlip st i v).zIndices.getD i 0 = listMax st.zIndices + 1 := by
    rw [hset]
    exact getD_set_self _ _ _ _ hi
  refine ⟨hgi, ?_⟩
  rw [hgi, hset, getD_set_ne _ _ _ _ _ (Ne.symm hne)]
  have hmem : st.zIndices.getD j 0 ∈ st.zIndices := by
    rw [List.getD_eq_getElem _ _ hj]
    exact List.getElem_mem hj
  have := le_listMax hmem
  omega

/-- Witness for C5 on the initialized 3-page book, flipping page 1 and
comparing against page 0. -/
theorem handleFlip_draw_order_max_witness :
    (handleFlip (initBook 3) 1 true).zIndices.getD 1 0 = listMax (initBook 3).zIndices + 1 ∧
    (handleFlip (initBook 3) 1 true).zIndices.getD 0 0 <
      (handleFlip (initBook 3) 1 true).zIndices.getD 1 0 :=
  handleFlip_draw_order_max (initBook 3) 1 0 true (by decide) (by decide) (by decide)

/-- C6: a navigation request whose target equals the current cursor is
dropped before the guard is even set: the entire state is unchanged and
no flip is scheduled. -/
theorem flipToPage_self_noop (refs : List Bool) (st : BookState) :
    flipToPage refs st st.currentPage = (st, []) := by
  rw [flipToPage, if_pos rfl]

/-- C7: after every completed flip report, `onFirstPage` holds iff entry 0
of the flipped vector is `false`, and `onLastPage` holds iff the last
entry is `true`; both are recomputed by `handleFlip` itself. -/
theorem handleFlip_boundary_flags (st : BookState) (i : Nat) (v : Bool) :
    ((handleFlip st i v).onFirstPage = true ↔
      (handleFlip st i v).flippedStates.getD 0 false = false) ∧
    ((handleFlip st i v).onLastPage = true ↔
      (handleFlip st i v).flippedStates.getD
        ((handleFlip st i v).flippedStates.length - 1) false = true) := by
  constructor
  · cases h : (st.flippedStates.set i v).getD 0 false <;> simp [handleFlip, h]
  · cases h : (st.flippedStates.set i v).getD ((st.flippedStates.set i v).length - 1) false <;>
      simp [handleFlip, h]

/-- C8: the imperative `flip()` of a `FlipPage` toggles the unit's own
flipped flag and invokes the owner-supplied `onFlip` exactly once with
the new value, while a change of the declarative `flipped` prop updates
the visual state without invoking `onFlip` at all. -/
theorem pageFlip_callback_contract (u : FlipPage.PageUnitState) (b : Bool) :
    (FlipPage.pageFlip u).1.isFlipped = !u.isFlipped ∧
    (FlipPage.pageFlip u).2 = [!u.isFlipped] ∧
    (FlipPage.syncFlippedProp u b).1.isFlipped = b ∧
    (FlipPage.syncFlippedProp u b).2 = [] :=
  ⟨rfl, rfl, rfl, rfl⟩

/-- C9: clicking a bookmark stops the click's propagation (so the hosting
page's own flip handling never sees it) and resolves the navigation to
the bookmark's `targetPage` through the very same `flipToPage` algorithm
as every other navigation request. -/
theorem bookmarkClick_stops_and_navigates (refs : List Bool) (e : ClickEvent)
    (st : BookState) (t : Nat) :
    (bookmarkClick refs e st t).1.propagationStopped = true ∧
    (bookmarkClick refs e st t).2 = flipToPage refs st t :=
  ⟨rfl, rfl⟩

/-- C10 (frame property): `handleFlip(i, v)` touches only entry `i` of
the flipped vector and entry `i` of the draw-order vector — every other
entry of both vectors, both lengths, and the page-descriptor list are
unchanged. -/
theorem handleFlip_frame (st : BookState) (i j : Nat) (v : Bool)
    (_hif : i < st.flippedStates.length) (_hiz : i < st.zIndices.length) (hj : j ≠ i) :
    (handleFlip st i v).flippedStates.length = st.flippedStates.length ∧
    (handleFlip st i v).zIndices.length = st.zIndices.length ∧
    (handleFlip st i v).flippedStates.getD j false = st.flippedStates.getD j false ∧
    (handleFlip st i v).zIndices.getD j 0 = st.zIndices.getD j 0 ∧
    (handleFlip st i v).pages = st.pages := by
  refine ⟨?_, ?_, ?_, ?_, ?_⟩
  · rw [handleFlip_flippedStates, List.length_set]
  · rw [handleFlip_zIndices, List.length_set]
  · rw [handleFlip_flippedStates]
    exact getD_set_ne _ _ _ _ _ (Ne.symm hj)
  · rw [handleFlip_zIndices]
    exact getD_set_ne _ _ _ _ _ (Ne.symm hj)
  · exact handleFlip_pages st i v

/-- C2: from a settled state with cursor `C` and all page refs present, a
forward request to `T > C` flips exactly pages `C .. T-1` to `true` in
strictly ascending index order and the cursor settles at `T`; a backward
request to `T < C` flips pages `C-1` down to `T` to `false` in strictly
descending index order and the cursor settles at `T`. -/
theorem flipToPage_sequence_order (n c t : Nat) (st : BookState)
    (hf : st.flippedStates = prefixList n c) (hcur : st.currentPage = c)
    (hturn : st.isTurning = false) (hcn : c ≤ n) (htn : t ≤ n) :
    (c < t →
      (flipToPage (List.replicate n true) st t).2 =
        (ascFrom c (t - c)).map (fun i => (i, true)) ∧
      List.Pairwise (· < ·) (((flipToPage (List.replicate n true) st t).2).map Prod.fst) ∧
      (flipToPage (List.replicate n true) st t).1.flippedStates = prefixList n t ∧
      (flipToPage (List.replicate n true) st t).1.currentPage = t) ∧
    (t < c →
      (flipToPage (List.replicate n true) st t).2 =
        (descFrom (c - 1) (c - t)).map (fun i => (i, false)) ∧
      List.Pairwise (· > ·) (((flipToPage (List.replicate n true) st t).2).map Prod.fst) ∧
      (flipToPage (List.replicate n true) st t).1.flippedStates = prefixList n t ∧
      (flipToPage (List.replicate n true) st t).1.currentPage = t) := by
  have href : ∀ i, i < n → (List.replicate n true).getD i false = true :=
    fun i hi => replicate_true_getD hi
  have hst1f : ({ st with isTurning := true } : BookState).flippedStates = prefixList n c := hf
  have hst1c : ({ st with isTurning := true } : BookState).currentPage = c := hcur
  constructor
  · intro hct
    have hne : ¬ (t = st.currentPage) := by omega
    have hunf : flipToPage (List.replicate n true) st t =
        ({ (runFlips (List.replicate n true) { st with isTurning := true }
              (ascFrom c (t - c))).1 with isTurning := false },
          (runFlips (List.replicate n true) { st with isTurning := true }
              (ascFrom c (t - c))).2) := by
      rw [flipToPage, if_neg hne, hturn, hcur]
      simp [hct]
    obtain ⟨ra, rb, -, rd⟩ :=
      runFlips_asc href (t - c) c { st with isTurning := true } (by omega) hst1f hst1c
    have hct2 : c + (t - c) = t := by omega
    rw [hct2] at ra rb
    have hp : List.Pairwise (· < ·) (((runFlips (List.replicate n true)
        { st with isTurning := true } (ascFrom c (t - c))).2).map Prod.fst) := by
      rw [rd, List.map_map]
      have hid : (Prod.fst ∘ fun i => ((i, true) : Nat × Bool)) = id := rfl
      rw [hid, List.map_id]
      exact pairwise_lt_ascFrom (t - c) c
    refine ⟨?_, ?_, ?_, ?_⟩
    · rw [hunf]
      exact rd
    · rw [hunf]
      exact hp
    · rw [hunf]
      exact ra
    · rw [hunf]
      exact rb
  · intro htc
    have hne : ¬ (t = st.currentPage) := by omega
    have hngt : ¬ (t > c) := by omega
    have hunf : flipToPage (List.replicate n true) st t =
        ({ (runFlips (List.replicate n true) { st with isTurning := true }
              (descFrom (c - 1) (c - t))).1 with isTurning := false },
          (runFlips (List.replicate n true) { st with isTurning := true }
              (descFrom (c - 1) (c - t))).2) := by
      rw [flipToPage, if_neg hne, hturn, hcur]
      simp [hngt]
    obtain ⟨ra, rb, -, rd⟩ :=
      runFlips_desc href (c - t) c { st with isTurning := true } (by omega) hcn hst1f hst1c
    have hct2 : c - (c - t) = t := by omega
    rw [hct2] at ra rb
    have hp : List.Pairwise (· > ·) (((runFlips (List.replicate n true)
        { st with isTurning := true } (descFrom (c - 1) (c - t))).2).map Prod.fst) := by
      rw [rd, List.map_map]
      have hid : (Prod.fst ∘ fun i => ((i, false) : Nat × Bool)) = id := rfl
      rw [hid, List.map_id]
      exact pairwise_gt_descFrom (c - t) (c - 1) (by omega)
    refine ⟨?_, ?_, ?_, ?_⟩
    · rw [hunf]
      exact rd
    · rw [hunf]
      exact hp
    · rw [hunf]
      exact ra
    · rw [hunf]
      exact rb

/-- Witness for C2: on the initialized 13-page book, navigating forward
`0 → 3` fires flips `(0,true),(1,true),(2,true)` in that order; from the
resulting cursor-5 state of a second navigation, going back `5 → 2` fires
`(4,false),(3,false),(2,false)` in that order. -/
theorem flipToPage_sequence_order_witness :
    (flipToPage (List.replicate 13 true) (initBook 13) 3).2 =
      [(0, true), (1, true), (2, true)] ∧
    (flipToPage (List.replicate 13 true)
        (flipToPage (List.replicate 13 true) (initBook 13) 5).1 2).2 =
      [(4, false), (3, false), (2, false)] := by
  constructor
  · have h := ((flipToPage_sequence_order 13 0 3 (initBook 13) (by decide) (by decide)
      (by decide) (by decide) (by decide)).1 (by decide)).1
    rw [h]
    decide
  · have h := ((flipToPage_sequence_order 13 5 2
      (flipToPage (List.replicate 13 true) (initBook 13) 5).1 (by decide) (by decide)
      (by decide) (by decide) (by decide)).2 (by decide)).1
    rw [h]
    decide

/-- Witness for C10 on the initialized 3-page book, flipping page 1 and
observing page 0. -/
theorem handleFlip_frame_witness :
    (handleFlip (initBook 3) 1 true).flippedStates.length =
      (initBook 3).flippedStates.length ∧
    (handleFlip (initBook 3) 1 true).zIndices.length = (initBook 3).zIndices.length ∧
    (handleFlip (initBook 3) 1 true).flippedStates.getD 0 false =
      (initBook 3).flippedStates.getD 0 false ∧
    (handleFlip (initBook 3) 1 true).zIndices.getD 0 0 = (initBook 3).zIndices.getD 0 0 ∧
    (handleFlip (initBook 3) 1 true).pages = (initBook 3).pages :=
  handleFlip_frame (initBook 3) 1 0 true (by decide) (by decide) (by decide)

end FlipBook
